import Mathlib

/-!
Verification of blink_fade_pio_pwm.py.

The file embeds, in Lean, the PIO PWM sequencer program pwm_prog (an
instruction-level step machine and a structured model of one period), the
PIOPWM controller's clamping set method, and the duty values produced by the
tick fade callback, and proves theorems about them.

Register conventions follow the RP2040 PIO: registers are 32-bit,
pull(noblock) on an empty TX FIFO copies X into the OSR, and jmp(y_dec)
branches while Y is nonzero prior to the decrement, the decrement taking
place in either case (modulo 2^32).
-/

/-- One iteration of the inner countdown loop of pwm_prog, as observed at the
comparison instruction jmp(x_not_y): the counter (Y) value at the comparison,
whether the HIGH side-set instruction (nop().side(1)) executed during this
iteration, and the pin level at the instant the comparison executes. -/
structure CmpStep where
  counter : Nat
  fired : Bool
  pinAtCmp : Bool
deriving DecidableEq, Repr

/-- The inner countdown loop of pwm_prog (source lines 38-43):

  label("pwmloop"); jmp(x_not_y, "skip"); nop().side(1); label("skip");
  jmp(y_dec, "pwmloop").

jmp(y_dec) branches back while Y is nonzero before the decrement, so the
comparison runs at every counter value from the initial Y down to 0
inclusive.  The pin argument is the side-set level entering the iteration;
a fire (X equal to Y) raises it for all following iterations of the period. -/
def pwm_prog_loop (x : Nat) (pin : Bool) : Nat → List CmpStep
  | 0 => [⟨0, x == 0, pin⟩]
  | y + 1 => ⟨y + 1, x == y + 1, pin⟩ :: pwm_prog_loop x (pin || (x == y + 1)) y

/-- One full period of pwm_prog (source lines 35-43): pull(noblock).side(0)
drives the pin LOW and loads the OSR from the TX FIFO when a word is
available, otherwise (non-blocking pull on an empty FIFO) from X; then
mov(x, osr), mov(y, isr), and the countdown loop. -/
def pwm_prog_period (fifo : Option Nat) (xPrev isr : Nat) : List CmpStep :=
  let osr := match fifo with
    | some v => v
    | none => xPrev
  pwm_prog_loop osr false isr

/-- Number of comparison steps of one period that observe the pin HIGH. -/
def high_steps (x maxc : Nat) : Nat :=
  ((pwm_prog_period (some x) 0 maxc).map CmpStep.pinAtCmp).count true

/-- State of the PIO state machine running pwm_prog: program counter (0-5),
scratch registers X and Y, the shift registers OSR and ISR, the side-set pin
level, and the pending TX FIFO word. -/
structure PioState where
  pc : Nat
  x : Nat
  y : Nat
  osr : Nat
  isr : Nat
  pin : Bool
  fifo : Option Nat
deriving DecidableEq, Repr

/-- Instruction-level step of pwm_prog (source lines 35-43).
pc 0: pull(noblock).side(0) — pin LOW, OSR from FIFO if available else from X;
pc 1: mov(x, osr); pc 2: mov(y, isr); pc 3: jmp(x_not_y, "skip");
pc 4: nop().side(1) — pin HIGH; pc 5: jmp(y_dec, "pwmloop") — branch back
when Y is nonzero before the decrement, Y decremented modulo 2^32 in either
case; falling through past the last instruction wraps to pc 0. -/
def pwm_prog_step (s : PioState) : PioState :=
  match s.pc with
  | 0 =>
    match s.fifo with
    | some v => { s with pc := 1, pin := false, osr := v, fifo := none }
    | none => { s with pc := 1, pin := false, osr := s.x }
  | 1 => { s with pc := 2, x := s.osr }
  | 2 => { s with pc := 3, y := s.isr }
  | 3 => { s with pc := if s.x = s.y then 4 else 5 }
  | 4 => { s with pc := 5, pin := true }
  | _ => { s with pc := if s.y = 0 then 0 else 3, y := (s.y + (2 ^ 32 - 1)) % 2 ^ 32 }

/-- Comparison steps collected while running the step machine for the given
fuel, stopping when the program counter returns to the top of the program
(pc 0, the start of the next period). -/
def pwm_prog_cmps : Nat → PioState → List CmpStep
  | 0, _ => []
  | fuel + 1, s =>
    if s.pc = 3 then ⟨s.y, s.x == s.y, s.pin⟩ :: pwm_prog_cmps fuel (pwm_prog_step s)
    else if s.pc = 0 then []
    else pwm_prog_cmps fuel (pwm_prog_step s)

/-- Clamp of PIOPWM.set (source lines 61-62):
value = max(value, -1); value = min(value, self._max_count). -/
def clamp (maxCount : Nat) (value : Int) : Int :=
  min (max value (-1)) (maxCount : Int)

/-- The 32-bit word that an integer becomes when written to the TX FIFO. -/
def word_of (v : Int) : Nat := (v % (2 ^ 32 : Int)).toNat

/-- Modelled from the spec: the Transfer Queue between controller and
sequencer.  The hardware FIFO behind StateMachine.put is not part of the
repository's source; the spec describes the queue as a single-slot,
last-write-wins cell, so a write overwrites any pending word. -/
def transfer_enqueue (w : Nat) (_q : Option Nat) : Option Nat :=
  some w

/-- Modelled from the spec: the sequencer's non-blocking read of the Transfer
Queue (the pull(noblock) side of the single-slot cell).  A pending word is
consumed and observed; an empty read is a no-op that keeps the previous X. -/
def transfer_read (q : Option Nat) (xPrev : Nat) : Nat × Option Nat :=
  match q with
  | some v => (v, none)
  | none => (xPrev, none)

/-- Modelled from the spec: StateMachine.put.  The runtime converts the
integer to a 32-bit machine word — values outside the representable range of
a machine word cannot be enqueued — and writes that word to the Transfer
Queue. -/
def sm_put (v : Int) (q : Option Nat) : Option (Option Nat) :=
  if -(2 ^ 31) ≤ v ∧ v < 2 ^ 32 then some (transfer_enqueue (word_of v) q) else none

/-- PIOPWM.set (source lines 59-63): clamp the requested value to
[-1, max_count], then put it to the state machine's TX FIFO. -/
def PIOPWM.set (maxCount : Nat) (q : Option Nat) (value : Int) : Option (Option Nat) :=
  let value1 := max value (-1)
  let value2 := min value1 (maxCount : Int)
  sm_put value2 q

/-- Python range(256, -1, -1) generalised: the list n, n-1, ..., 1, 0. -/
def range_down : Nat → List Nat
  | 0 => [0]
  | n + 1 => (n + 1) :: range_down n

/-- max_count = (1 << 16) - 1 (source line 77). -/
def max_count : Nat := 2 ^ 16 - 1

/-- The duty values passed to pwm.set by one invocation of the tick callback
(source lines 65-75): i**2 for i in range(256), the fade in, followed by
i**2 for i in range(256, -1, -1), the fade out. -/
def tick_calls : List Int :=
  ((List.range 256).map fun i : Nat => ((i : Int)) ^ 2) ++
    ((range_down 256).map fun i : Nat => ((i : Int)) ^ 2)

/-- The clamped duty values reaching the TX FIFO during one tick invocation. -/
def fade_trace : List Int := tick_calls.map (clamp max_count)

/-! ### Lemmas about the inner loop trace -/

theorem pwm_prog_loop_length (x : Nat) (pin : Bool) (y : Nat) :
    (pwm_prog_loop x pin y).length = y + 1 := by
  induction y generalizing pin with
  | zero => rfl
  | succ y ih => simp [pwm_prog_loop, ih]

theorem pwm_prog_loop_ne_nil (x : Nat) (pin : Bool) (y : Nat) :
    pwm_prog_loop x pin y ≠ [] := by
  cases y <;> simp [pwm_prog_loop]

/-- Once the pin is HIGH it stays HIGH for the remainder of the period. -/
theorem pwm_prog_loop_map_pin_true (x y : Nat) :
    (pwm_prog_loop x true y).map CmpStep.pinAtCmp = List.replicate (y + 1) true := by
  induction y with
  | zero => rfl
  | succ y ih => simp [pwm_prog_loop, List.replicate_succ, ih]

/-- A threshold above every counter value never fires and leaves every
comparison observing the pin LOW. -/
theorem pwm_prog_loop_all_off (x y : Nat) (h : y < x) :
    (pwm_prog_loop x false y).all (fun s => !s.fired && !s.pinAtCmp) = true := by
  induction y with
  | zero =>
    have hx : (x == 0) = false := by simp [Nat.pos_iff_ne_zero.mp h]
    simp [pwm_prog_loop, hx]
  | succ y ih =>
    have hx : (x == y + 1) = false := by
      simp [Nat.ne_of_gt h]
    simp [pwm_prog_loop, hx, ih (Nat.lt_of_succ_lt h)]

/-- Pin trace of one period for an in-range threshold x ≤ y, started LOW:
LOW for the first y + 1 - x comparisons, HIGH for the last x. -/
theorem pwm_prog_loop_map_pin (x y : Nat) (h : x ≤ y) :
    (pwm_prog_loop x false y).map CmpStep.pinAtCmp =
      List.replicate (y + 1 - x) false ++ List.replicate x true := by
  induction y with
  | zero =>
    have hx : x = 0 := Nat.le_zero.mp h
    subst hx
    rfl
  | succ y ih =>
    rcases Nat.lt_or_ge x (y + 1) with hlt | hge
    · have hx : (x == y + 1) = false := by simp [Nat.ne_of_lt hlt]
      have hrw : y + 1 + 1 - x = (y + 1 - x) + 1 := by omega
      simp only [pwm_prog_loop, hx, Bool.or_false, List.map_cons,
        ih (Nat.lt_succ_iff.mp hlt), hrw, List.replicate_succ, List.cons_append]
    · have hx : x = y + 1 := Nat.le_antisymm h hge
      subst hx
      have hrw : y + 1 + 1 - (y + 1) = 1 := by omega
      simp only [pwm_prog_loop, beq_self_eq_true, Bool.or_true, List.map_cons,
        pwm_prog_loop_map_pin_true, hrw, List.replicate_succ, List.replicate_zero,
        List.cons_append, List.nil_append]

/-- The number of HIGH comparison steps per period equals the threshold, for
in-range thresholds. -/
theorem high_steps_eq (x maxc : Nat) (h : x ≤ maxc) : high_steps x maxc = x := by
  unfold high_steps pwm_prog_period
  rw [pwm_prog_loop_map_pin x maxc h, List.count_append]
  simp [List.count_replicate]

/-- The counter values of the comparisons of one period are the initial Y
value down to 0 inclusive. -/
theorem pwm_prog_loop_map_counter (x : Nat) (pin : Bool) (y : Nat) :
    (pwm_prog_loop x pin y).map CmpStep.counter = (List.range (y + 1)).reverse := by
  induction y generalizing pin with
  | zero => rfl
  | succ y ih =>
    rw [List.range_succ]
    simp [pwm_prog_loop, ih]

/-- With threshold 0 the pin stays LOW at every comparison (the fire at
counter 0 happens after the final comparison). -/
theorem pwm_prog_loop_zero_all_low (y : Nat) :
    (pwm_prog_loop 0 false y).all (fun s => !s.pinAtCmp) = true := by
  induction y with
  | zero => rfl
  | succ y ih => simp [pwm_prog_loop, ih]

theorem getLast?_cons_of_ne {α : Type} (a : α) (l : List α) (h : l ≠ []) :
    (a :: l).getLast? = l.getLast? := by
  cases l with
  | nil => exact absurd rfl h
  | cons b t => exact List.getLast?_cons_cons

/-- With threshold 0 the final comparison is at counter 0 and the HIGH
side-set fires there. -/
theorem pwm_prog_loop_zero_getLast (pin : Bool) (y : Nat) :
    (pwm_prog_loop 0 pin y).getLast? = some ⟨0, true, pin⟩ := by
  induction y with
  | zero => rfl
  | succ y ih =>
    rw [pwm_prog_loop]
    simp only [show (0 == y + 1) = false from rfl, Bool.or_false]
    rw [getLast?_cons_of_ne _ _ (pwm_prog_loop_ne_nil 0 pin y)]
    exact ih

/-! ### The instruction-level machine refines the structured period model -/

theorem pwm_prog_cmps_pc0 (fuel : Nat) (s : PioState) (h : s.pc = 0) :
    pwm_prog_cmps fuel s = [] := by
  cases fuel with
  | zero => rfl
  | succ f => simp [pwm_prog_cmps, h]

/-- Running the step machine from the top of the countdown loop (pc 3)
collects exactly the comparison steps of the structured loop model. -/
theorem pwm_prog_cmps_loop (y : Nat) :
    ∀ (fuel x osr isr : Nat) (pin : Bool) (fifo : Option Nat),
      y < 2 ^ 32 → 3 * y + 3 ≤ fuel →
      pwm_prog_cmps fuel ⟨3, x, y, osr, isr, pin, fifo⟩ = pwm_prog_loop x pin y := by
  induction y with
  | zero =>
    intro fuel x osr isr pin fifo hy hf
    obtain ⟨f, rfl⟩ : ∃ f, fuel = f + 3 := ⟨fuel - 3, by omega⟩
    by_cases hx : x = 0 <;>
      simp [pwm_prog_cmps, pwm_prog_step, pwm_prog_loop, hx, pwm_prog_cmps_pc0]
  | succ y ih =>
    intro fuel x osr isr pin fifo hy hf
    have hy' : y < 2 ^ 32 := by omega
    have hmod : (y + 1 + (2 ^ 32 - 1)) % 2 ^ 32 = y := by omega
    have hmod' : (y + 1 + 4294967295) % 4294967296 = y := by omega
    by_cases hx : x = y + 1
    · obtain ⟨f, rfl⟩ : ∃ f, fuel = f + 3 := ⟨fuel - 3, by omega⟩
      subst hx
      simp only [pwm_prog_cmps, pwm_prog_step, pwm_prog_loop, hmod, hmod',
        beq_self_eq_true, Bool.or_true]
      norm_num [hmod, hmod']
      rw [ih f (y + 1) osr isr true fifo hy' (by omega)]
    · obtain ⟨f, rfl⟩ : ∃ f, fuel = f + 2 := ⟨fuel - 2, by omega⟩
      have hbeq : (x == y + 1) = false := by simp [hx]
      simp only [pwm_prog_cmps, pwm_prog_step, pwm_prog_loop, hmod, hmod',
        hbeq, Bool.or_false, if_neg hx]
      norm_num [hmod, hmod']
      rw [ih f x osr isr pin fifo hy' (by omega)]

/-- Running the step machine from the start of a period (pc 0, executing the
pull and the two mov instructions, then the loop) collects exactly the
comparison steps of pwm_prog_period. -/
theorem pwm_prog_cmps_period (fuel x y0 osr0 isr : Nat) (pin0 : Bool)
    (fifo : Option Nat) (hisr : isr < 2 ^ 32) (hf : 3 * isr + 3 ≤ fuel) :
    pwm_prog_cmps fuel (pwm_prog_step (pwm_prog_step (pwm_prog_step
      ⟨0, x, y0, osr0, isr, pin0, fifo⟩))) = pwm_prog_period fifo x isr := by
  cases fifo with
  | some v =>
    simp only [pwm_prog_step, pwm_prog_period]
    exact pwm_prog_cmps_loop isr fuel v v isr false none hisr hf
  | none =>
    simp only [pwm_prog_step, pwm_prog_period]
    exact pwm_prog_cmps_loop isr fuel x x isr false none hisr hf

/-! ### Lemmas about the tick callback's call sequence -/

theorem range_down_length (n : Nat) : (range_down n).length = n + 1 := by
  induction n with
  | zero => rfl
  | succ n ih => simp [range_down, ih]

theorem range_down_getElem (n j : Nat) (h : j ≤ n) :
    (range_down n)[j]? = some (n - j) := by
  induction n generalizing j with
  | zero =>
    have hj : j = 0 := Nat.le_zero.mp h
    subst hj
    rfl
  | succ n ih =>
    cases j with
    | zero => simp [range_down]
    | succ j =>
      have hj : j ≤ n := Nat.succ_le_succ_iff.mp h
      simp only [range_down, List.getElem?_cons_succ, ih j hj]
      congr 1
      omega

/-! ### Claims -/

/-- C1: for max_count = 65535, with the Duty Threshold register holding the
word that set_duty(-1) enqueues (the off sentinel, the register's maximum
unsigned value 2^32 - 1), one full period of the sequencer fires the HIGH
side-set at no comparison step and the pin is observed LOW at every step,
whatever stale X value the non-blocking fetch would have recycled. -/
theorem pwm_off_sentinel_all_low (xPrev : Nat) :
    (pwm_prog_period (some (word_of (clamp max_count (-1)))) xPrev max_count).all
      (fun s => !s.fired && !s.pinAtCmp) = true := by
  have hw : word_of (clamp max_count (-1)) = 4294967295 := by decide
  simp only [pwm_prog_period, hw]
  exact pwm_prog_loop_all_off 4294967295 max_count (by decide)

/-- C2: with the Duty Threshold register holding max_count, one simulated
period observes the pin HIGH at max_count of its max_count + 1 comparison
steps, LOW only at the single initial step, where the non-blocking fetch's
side-set has just driven it LOW. -/
theorem pwm_full_on_duty (maxc : Nat) :
    (pwm_prog_period (some maxc) 0 maxc).map CmpStep.pinAtCmp =
        false :: List.replicate maxc true ∧
      (pwm_prog_period (some maxc) 0 maxc).length = maxc + 1 ∧
      high_steps maxc maxc = maxc := by
  refine ⟨?_, ?_, high_steps_eq maxc maxc le_rfl⟩
  · simp only [pwm_prog_period]
    rw [pwm_prog_loop_map_pin maxc maxc le_rfl,
      show maxc + 1 - maxc = 1 from by omega]
    simp [List.replicate_succ]
  · simp only [pwm_prog_period]
    exact pwm_prog_loop_length maxc false maxc

/-- C3: for thresholds a < b, both at most max_count, the number of HIGH
comparison steps per period with threshold b is at least the number with
threshold a — duty is monotone non-decreasing in the threshold. -/
theorem pwm_duty_monotone (maxc a b : Nat) (hab : a < b) (hb : b ≤ maxc) :
    high_steps a maxc ≤ high_steps b maxc := by
  rw [high_steps_eq a maxc (by omega), high_steps_eq b maxc hb]
  omega

theorem pwm_duty_monotone_witness :
    1 < 2 ∧ 2 ≤ 3 ∧ high_steps 1 3 ≤ high_steps 2 3 :=
  ⟨by decide, by decide, pwm_duty_monotone 3 1 2 (by decide) (by decide)⟩

/-- C4: the clamp of PIOPWM.set maps every integer into [-1, max_count] —
values below -1 are raised to -1, values above max_count are capped to
max_count, in-range values are unchanged — and it is idempotent. -/
theorem clamp_range_idempotent (maxCount : Nat) (v : Int) :
    clamp maxCount (clamp maxCount v) = clamp maxCount v ∧
      -1 ≤ clamp maxCount v ∧ clamp maxCount v ≤ (maxCount : Int) ∧
      (v < -1 → clamp maxCount v = -1) ∧
      ((maxCount : Int) < v → clamp maxCount v = (maxCount : Int)) ∧
      (-1 ≤ v → v ≤ (maxCount : Int) → clamp maxCount v = v) := by
  have h0 : (0 : Int) ≤ (maxCount : Int) := Int.natCast_nonneg maxCount
  simp only [clamp, min_def, max_def]
  split_ifs <;> omega

theorem clamp_range_idempotent_witness :
    clamp 65535 (-7) = -1 ∧ clamp 65535 70000 = 65535 ∧ clamp 65535 42 = 42 ∧
      clamp 65535 (clamp 65535 (-7)) = clamp 65535 (-7) :=
  ⟨(clamp_range_idempotent 65535 (-7)).2.2.2.1 (by decide),
   (clamp_range_idempotent 65535 70000).2.2.2.2.1 (by decide),
   (clamp_range_idempotent 65535 42).2.2.2.2.2 (by decide) (by decide),
   (clamp_range_idempotent 65535 (-7)).1⟩

/-- C5: from any state at the start of a period (pc 0), executing the
non-blocking fetch instruction pull(noblock).side(0) drives the pin LOW and
moves to the next instruction, whether or not the Transfer Queue held a new
value: every reachable period begins with the pin LOW. -/
theorem fetch_sideset_drives_pin_low (s : PioState) (h : s.pc = 0) :
    (pwm_prog_step s).pin = false ∧ (pwm_prog_step s).pc = 1 := by
  cases hf : s.fifo <;> simp [pwm_prog_step, h, hf]

theorem fetch_sideset_drives_pin_low_witness :
    ((pwm_prog_step ⟨0, 1, 2, 3, 4, true, some 9⟩).pin = false ∧
        (pwm_prog_step ⟨0, 1, 2, 3, 4, true, some 9⟩).pc = 1) ∧
      ((pwm_prog_step ⟨0, 1, 2, 3, 4, true, none⟩).pin = false ∧
        (pwm_prog_step ⟨0, 1, 2, 3, 4, true, none⟩).pc = 1) :=
  ⟨fetch_sideset_drives_pin_low ⟨0, 1, 2, 3, 4, true, some 9⟩ rfl,
   fetch_sideset_drives_pin_low ⟨0, 1, 2, 3, 4, true, none⟩ rfl⟩

/-- C6: PIOPWM.set is total — for every signed integer input it clamps
rather than rejects, the clamped value always fits the 32-bit word that
StateMachine.put requires, and the clamped word is enqueued; no input makes
it fail. -/
theorem set_never_fails (maxCount : Nat) (q : Option Nat) (v : Int)
    (h : (maxCount : Int) < 2 ^ 32) :
    PIOPWM.set maxCount q v = some (some (word_of (clamp maxCount v))) := by
  have hset : PIOPWM.set maxCount q v = sm_put (clamp maxCount v) q := rfl
  have h1 : -1 ≤ clamp maxCount v := le_min (le_max_right v (-1)) (by omega)
  have h2 : clamp maxCount v ≤ (maxCount : Int) := min_le_right _ _
  rw [hset]
  unfold sm_put
  rw [if_pos ⟨by omega, by omega⟩]
  rfl

theorem set_never_fails_witness :
    PIOPWM.set 65535 none (-100) = some (some (word_of (clamp 65535 (-100)))) ∧
      word_of (clamp 65535 (-100)) = 4294967295 :=
  ⟨set_never_fails 65535 none (-100) (by decide), by decide⟩

/-- C7 counterexample: one invocation of the tick callback calls pwm.set 513
times, not 512 — range(256) contributes 256 calls and range(256, -1, -1)
contributes 257. -/
theorem tick_calls_count_is_513 :
    tick_calls.length = 513 ∧ ¬tick_calls.length = 512 := by
  have h : tick_calls.length = 513 := by
    simp [tick_calls, range_down_length]
  exact ⟨h, by omega⟩

/-- C7 amended: each invocation of the tick callback calls set_duty exactly
513 times — 256 ascending values i^2 for i in [0, 256), followed by 257
descending values i^2 for i from 256 down to 0. -/
theorem tick_calls_structure :
    tick_calls.length = 513 ∧
      (∀ i : Nat, i < 256 → tick_calls[i]? = some ((i : Int) ^ 2)) ∧
      (∀ j : Nat, j ≤ 256 → tick_calls[256 + j]? = some (((256 - j : Nat) : Int) ^ 2)) := by
  refine ⟨?_, ?_, ?_⟩
  · simp [tick_calls, range_down_length]
  · intro i hi
    rw [tick_calls, List.getElem?_append_left (by simpa using hi)]
    simp [List.getElem?_range hi]
  · intro j hj
    rw [tick_calls, List.getElem?_append_right (by simp)]
    simp [range_down_getElem 256 j hj]

theorem tick_calls_structure_witness :
    tick_calls[10]? = some ((10 : Int) ^ 2) ∧
      tick_calls[256 + 6]? = some (((256 - 6 : Nat) : Int) ^ 2) ∧
      ((10 : Int) ^ 2 = 100 ∧ ((256 - 6 : Nat) : Int) ^ 2 = 62500) :=
  ⟨tick_calls_structure.2.1 10 (by decide),
   tick_calls_structure.2.2 6 (by decide),
   by decide⟩

set_option maxRecDepth 8000 in
/-- C8 counterexample: the clamped duty trace of one fade cycle has 513
queued transitions, not 512, and contains the value 65535 (the clamp of
256^2 = 65536), so the ramp peaks at 65535, not at 65025. -/
theorem fade_trace_peak_and_count :
    fade_trace.length = 513 ∧ fade_trace.contains 65535 = true ∧
      ¬fade_trace.length = 512 := by
  have h : fade_trace.length = 513 := by
    simp [fade_trace, tick_calls, range_down_length]
  exact ⟨h, by decide, by omega⟩

set_option maxRecDepth 8000 in
/-- C8 amended: the clamped duty trace of one fade cycle is a
mirror-symmetric ramp of 513 queued transitions peaking at 65535 (the clamp
of 256^2) and returning to 0, and no value outside [0, 65535] ever reaches
the Duty Threshold register. -/
theorem fade_trace_palindrome :
    fade_trace.reverse = fade_trace ∧
      fade_trace.contains 65535 = true ∧
      fade_trace.all (fun v => decide (0 ≤ v) && decide (v ≤ 65535)) = true ∧
      fade_trace[0]? = some 0 ∧
      fade_trace.getLast? = some 0 ∧
      fade_trace.length = 513 :=
  ⟨by decide, by decide, by decide, by decide, by decide, by decide⟩

/-- C9: the Transfer Queue is a single-slot last-write-wins cell — when
set_duty enqueues v1 and then v2 before the sequencer's next fetch, the slot
holds exactly v2, the fetch observes v2 and empties the slot, and (when
v1 differs from v2) v1 is never observed. -/
theorem transfer_last_write_wins (v1 v2 xPrev : Nat) (q : Option Nat) :
    transfer_enqueue v2 (transfer_enqueue v1 q) = some v2 ∧
      (transfer_read (transfer_enqueue v2 (transfer_enqueue v1 q)) xPrev).1 = v2 ∧
      (transfer_read (transfer_enqueue v2 (transfer_enqueue v1 q)) xPrev).2 = none ∧
      (v1 ≠ v2 → (transfer_read (transfer_enqueue v2 (transfer_enqueue v1 q)) xPrev).1 ≠ v1) :=
  ⟨rfl, rfl, rfl, fun h => Ne.symm h⟩

theorem transfer_last_write_wins_witness :
    (transfer_read (transfer_enqueue 2 (transfer_enqueue 1 none)) 0).1 = 2 ∧
      (transfer_read (transfer_enqueue 2 (transfer_enqueue 1 none)) 0).1 ≠ 1 :=
  ⟨(transfer_last_write_wins 1 2 0 none).2.1,
   (transfer_last_write_wins 1 2 0 none).2.2.2 (by decide)⟩

/-- C10 counterexample: with Duty Threshold 0 and max_count = 65535, the
final comparison of the period is performed at counter value 0 and the HIGH
side-set fires there — the comparison range does include 0, and set_duty(0)
is not identical to the -1 sentinel but produces a brief pulse at the period
boundary. -/
theorem threshold_zero_fires_at_counter_zero :
    (pwm_prog_period (some 0) 0 max_count).getLast? = some ⟨0, true, false⟩ := by
  simp only [pwm_prog_period]
  exact pwm_prog_loop_zero_getLast false max_count

/-- C10 amended: the counter values at which the comparison is performed are
exactly max_count down to 0 inclusive; a Duty Threshold of 0 fires the HIGH
side-set at the final comparison step (counter 0), producing a brief HIGH
pulse at the period boundary rather than an output identical to the -1
sentinel — although no comparison instant observes the pin HIGH, so the
observed per-step duty is still 0. -/
theorem cmp_counters_reach_zero (maxc xPrev : Nat) :
    (pwm_prog_period (some 0) xPrev maxc).map CmpStep.counter =
        (List.range (maxc + 1)).reverse ∧
      (pwm_prog_period (some 0) xPrev maxc).getLast? = some ⟨0, true, false⟩ ∧
      (pwm_prog_period (some 0) xPrev maxc).all (fun s => !s.pinAtCmp) = true := by
  refine ⟨?_, ?_, ?_⟩ <;> simp only [pwm_prog_period]
  · exact pwm_prog_loop_map_counter 0 false maxc
  · exact pwm_prog_loop_zero_getLast false maxc
  · exact pwm_prog_loop_zero_all_low maxc

